import Mathlib

/-!
Verification of the Hekate multi-source version resolution engine.

Shallow embedding of:
* `src/asclepius/utils/version.py` — the version-text algebra
  (`extract_version_numbers`, `normalize_version`, `parse_version`,
  `compare_versions`);
* `src/hekate/update_finder.py` — the orchestrator `UpdateFinder.find_latest`;
* `src/hekate/methods/wikipedia.py` and `src/hekate/methods/provider.py` —
  the strategy result records and the control flow of `get_version`.

Python strings are modelled as Lean `String`/`List Char`.  The `\d`, `\s`
and `\w` character classes of the source regexes, and the digit handling of
Python `int()`, are modelled over ASCII (the source is only exercised with
ASCII version strings); `int()`'s whitespace stripping, sign handling and
digit-group underscores are modelled explicitly.
-/

/-! ## Character helpers (ASCII models of Python predicates) -/

/-- ASCII model of the regex class `\w` (Python word character). -/
def isWordC (c : Char) : Bool := c.isAlphanum || c == '_'

/-- ASCII model of the regex class `\s` (Python whitespace). -/
def isSpaceC (c : Char) : Bool :=
  c == ' ' || c == '\t' || c == '\n' || c == '\r' || c == '\x0b' || c == '\x0c'

/-- Maximal ASCII digit run at the head of the input: the pair of the run
and the rest (model of a greedy `\d+` attempt, possibly empty). -/
def takeDigits : List Char → List Char × List Char
  | c :: rest =>
    if c.isDigit then
      let dr := takeDigits rest
      (c :: dr.1, dr.2)
    else ([], c :: rest)
  | [] => ([], [])

/-- Maximal whitespace run at the head of the input (greedy `\s*`). -/
def takeSpaces : List Char → List Char × List Char
  | c :: rest =>
    if isSpaceC c then
      let dr := takeSpaces rest
      (c :: dr.1, dr.2)
    else ([], c :: rest)
  | [] => ([], [])

/-- Numeric value of an ASCII digit run. -/
def digitsToNat (ds : List Char) : Nat :=
  ds.foldl (fun acc c => acc * 10 + (c.toNat - 48)) 0

/-! ## Python `int()` on a string (used by `parse_version`'s `int(part)`)

`int(s)` strips surrounding whitespace, accepts an optional sign and a
nonempty digit sequence in which single underscores may separate digits;
anything else raises `ValueError` (modelled as `none`). -/

/-- Digit sequence with optional single underscores between digits, which
must consume the whole input; first character must be a digit. -/
def pyIntDigitsAux : Nat → List Char → Option Nat
  | acc, [] => some acc
  | acc, c :: rest =>
    if c.isDigit then pyIntDigitsAux (acc * 10 + (c.toNat - 48)) rest
    else if c == '_' then
      match rest with
      | d :: rest2 =>
        if d.isDigit then pyIntDigitsAux (acc * 10 + (d.toNat - 48)) rest2
        else none
      | [] => none
    else none

/-- Whole-input digit sequence (with underscores), `none` on failure. -/
def pyIntDigits : List Char → Option Nat
  | c :: rest => if c.isDigit then pyIntDigitsAux (c.toNat - 48) rest else none
  | [] => none

/-- Model of Python `int(s)` for `str` input: `none` models `ValueError`. -/
def pyInt (cs : List Char) : Option Int :=
  let stripped := ((cs.dropWhile isSpaceC).reverse.dropWhile isSpaceC).reverse
  match stripped with
  | '+' :: rest => (pyIntDigits rest).map (fun n => (n : Int))
  | '-' :: rest => (pyIntDigits rest).map (fun n => -(n : Int))
  | other => (pyIntDigits other).map (fun n => (n : Int))

/-- Model of `re.match(r'(\d+)', part)`: the leading digit run, anchored at
the start of the string; `none` when the first character is not a digit. -/
def leadingDigits (cs : List Char) : Option Nat :=
  match cs with
  | c :: _ => if c.isDigit then some (digitsToNat (takeDigits cs).1) else none
  | [] => none

/-! ## `version.py` lines 54-73: `normalize_version` -/

/-- Model of Python `str.split('.')`: note `"".split('.') == [""]`. -/
def splitDot : List Char → List (List Char)
  | [] => [[]]
  | c :: rest =>
    if c == '.' then [] :: splitDot rest
    else
      match splitDot rest with
      | [] => [[c]]
      | g :: gs => (c :: g) :: gs

/-- The `while len(parts) > 1 and parts[-1] == '0'` loop of
`normalize_version`, acting on the reversed parts list. -/
def dropZeroPartsRev : List (List Char) → List (List Char)
  | p :: q :: rest =>
    if p == ['0'] then dropZeroPartsRev (q :: rest) else p :: q :: rest
  | l => l

/-- `normalize_version` (version.py lines 54-73): strip a leading `v`/`V`,
split on `.`, drop trailing `"0"` components while more than one part
remains, and rejoin with `.`. -/
def normalize_version (version : String) : String :=
  let cs :=
    match version.data with
    | c :: rest => if c.toLower == 'v' then rest else c :: rest
    | [] => []
  let parts := splitDot cs
  let parts := (dropZeroPartsRev parts.reverse).reverse
  String.mk (List.intercalate ['.'] parts)

/-! ## `version.py` lines 76-103: `parse_version` -/

/-- One component of `parse_version`: `int(part)`, falling back to the
leading digit run, falling back to `0`. -/
def parsePart (cs : List Char) : Int :=
  match pyInt cs with
  | some n => n
  | none =>
    match leadingDigits cs with
    | some d => (d : Int)
    | none => 0

/-- `parse_version` (version.py lines 76-103): normalize, split on `.`,
convert each part to an integer. -/
def parse_version (version : String) : List Int :=
  (splitDot (normalize_version version).data).map parsePart

/-! ## `version.py` lines 106-135: `compare_versions` -/

/-- The `for c1, c2 in zip(...)` comparison loop with its trailing
`return 0`. -/
def cmpComponents : List Int → List Int → Int
  | x :: xs, y :: ys =>
    if x < y then -1
    else if x > y then 1
    else cmpComponents xs ys
  | _, _ => 0

/-- Pad a component list with zeros up to length `n`
(`v + (0,) * (length - len(v))`). -/
def padZeros (l : List Int) (n : Nat) : List Int :=
  l ++ List.replicate (n - l.length) 0

/-- `compare_versions` (version.py lines 106-135): parse both, zero-pad to
the common length, compare component-wise. -/
def compare_versions (version1 version2 : String) : Int :=
  let v1 := parse_version version1
  let v2 := parse_version version2
  let len := max v1.length v2.length
  cmpComponents (padZeros v1 len) (padZeros v2 len)

/-! ## Order-theoretic lemmas about the comparison loop -/

theorem cmpComponents_self : ∀ xs : List Int, cmpComponents xs xs = 0
  | [] => rfl
  | x :: xs => by
    unfold cmpComponents
    rw [if_neg (lt_irrefl x), if_neg (lt_irrefl x)]
    exact cmpComponents_self xs

theorem cmpComponents_antisymm :
    ∀ xs ys : List Int, cmpComponents xs ys = -cmpComponents ys xs := by
  intro xs
  induction xs with
  | nil => intro ys; cases ys <;> simp [cmpComponents]
  | cons x xs ih =>
    intro ys
    cases ys with
    | nil => simp [cmpComponents]
    | cons y ys =>
      unfold cmpComponents
      rcases lt_trichotomy x y with h | h | h
      · rw [if_pos h, if_neg (not_lt.mpr h.le), if_pos h]
      · subst h
        rw [if_neg (lt_irrefl x), if_neg (lt_irrefl x), if_neg (lt_irrefl x),
          if_neg (lt_irrefl x)]
        exact ih ys
      · rw [if_neg (not_lt.mpr h.le), if_pos h, if_pos h]
        decide

theorem cmpComponents_append_replicate :
    ∀ (xs ys : List Int) (k : Nat), xs.length = ys.length →
      cmpComponents (xs ++ List.replicate k 0) (ys ++ List.replicate k 0) =
        cmpComponents xs ys := by
  intro xs
  induction xs with
  | nil =>
    intro ys k h
    cases ys with
    | nil => simp [cmpComponents_self, cmpComponents]
    | cons y ys => simp at h
  | cons x xs ih =>
    intro ys k h
    cases ys with
    | nil => simp at h
    | cons y ys =>
      simp only [List.cons_append]
      unfold cmpComponents
      simp only [List.length_cons, Nat.succ.injEq] at h
      rw [ih ys k h]

theorem cmpComponents_trans :
    ∀ (xs ys zs : List Int), xs.length = ys.length → ys.length = zs.length →
      0 ≤ cmpComponents xs ys → 0 ≤ cmpComponents ys zs →
      0 ≤ cmpComponents xs zs := by
  intro xs
  induction xs with
  | nil =>
    intro ys zs h1 h2 _ _
    cases ys <;> cases zs <;> simp [cmpComponents] at *
  | cons x xs ih =>
    intro ys zs h1 h2 hxy hyz
    cases ys with
    | nil => simp at h1
    | cons y ys =>
      cases zs with
      | nil => simp at h2
      | cons z zs =>
        simp only [List.length_cons, Nat.succ.injEq] at h1 h2
        unfold cmpComponents at hxy hyz ⊢
        by_cases hlt : x < y
        · rw [if_pos hlt] at hxy; omega
        · rw [if_neg hlt] at hxy
          by_cases hlt2 : y < z
          · rw [if_pos hlt2] at hyz; omega
          · rw [if_neg hlt2] at hyz
            have hxz : ¬ x < z := by omega
            rw [if_neg hxz]
            by_cases hgt : x > z
            · rw [if_pos hgt]; omega
            · rw [if_neg hgt]
              have hez : x = z := by omega
              have hey : x = y := by omega
              subst hez; subst hey
              rw [if_neg (lt_irrefl x)] at hxy hyz
              exact ih ys zs h1 h2 hxy hyz

theorem cmpComponents_range :
    ∀ xs ys : List Int, cmpComponents xs ys = -1 ∨ cmpComponents xs ys = 0 ∨
      cmpComponents xs ys = 1 := by
  intro xs
  induction xs with
  | nil => intro ys; cases ys <;> simp [cmpComponents]
  | cons x xs ih =>
    intro ys
    cases ys with
    | nil => simp [cmpComponents]
    | cons y ys =>
      unfold cmpComponents
      by_cases h1 : x < y
      · rw [if_pos h1]; left; rfl
      · rw [if_neg h1]
        by_cases h2 : x > y
        · rw [if_pos h2]; right; right; rfl
        · rw [if_neg h2]; exact ih ys

theorem padZeros_length (l : List Int) (n : Nat) (h : l.length ≤ n) :
    (padZeros l n).length = n := by
  simp [padZeros]; omega

theorem padZeros_stable (l : List Int) (m n : Nat) (h1 : l.length ≤ m) (h2 : m ≤ n) :
    padZeros l n = padZeros l m ++ List.replicate (n - m) 0 := by
  simp only [padZeros, List.append_assoc, List.append_cancel_left_eq]
  rw [← List.replicate_add]
  congr 1
  omega

/-- `compare_versions` can equivalently be computed at any common padding
length `M` at least as large as both parsed tuples. -/
theorem compare_versions_at (a b : String) (M : Nat)
    (h : max (parse_version a).length (parse_version b).length ≤ M) :
    compare_versions a b =
      cmpComponents (padZeros (parse_version a) M) (padZeros (parse_version b) M) := by
  unfold compare_versions
  set pa := parse_version a
  set pb := parse_version b
  set L := max pa.length pb.length with hL
  have hpa : pa.length ≤ L := le_max_left _ _
  have hpb : pb.length ≤ L := le_max_right _ _
  have hLM : L ≤ M := h
  rw [padZeros_stable pa L M hpa hLM, padZeros_stable pb L M hpb hLM,
    cmpComponents_append_replicate]
  rw [padZeros_length pa L hpa, padZeros_length pb L hpb]

/-- Two version strings with the same parsed tuple compare identically
against any third string. -/
theorem compare_versions_congr_left (a a' b : String)
    (h : parse_version a = parse_version a') :
    compare_versions a b = compare_versions a' b := by
  unfold compare_versions
  rw [h]

/-! ## Claim theorems over the version algebra -/

/-- C2: version comparison is a total order over the normalized integer
tuples: for all version strings `a`, `b`, `c`, `compare(a,b) == -compare(b,a)`,
`compare(a,a) == 0`, and if `compare(a,b) >= 0` and `compare(b,c) >= 0` then
`compare(a,c) >= 0`. -/
theorem compare_versions_total_order (a b c : String) :
    compare_versions a b = -compare_versions b a ∧
    compare_versions a a = 0 ∧
    (compare_versions a b ≥ 0 → compare_versions b c ≥ 0 → compare_versions a c ≥ 0) := by
  refine ⟨?_, ?_, ?_⟩
  · unfold compare_versions
    rw [cmpComponents_antisymm]
    rw [Nat.max_comm]
  · unfold compare_versions
    exact cmpComponents_self _
  · intro h1 h2
    set M := max (max (parse_version a).length (parse_version b).length)
      (max (parse_version b).length (parse_version c).length) with hM
    rw [compare_versions_at a b M (le_max_left _ _)] at h1
    rw [compare_versions_at b c M (le_max_right _ _)] at h2
    rw [compare_versions_at a c M (by
      apply max_le
      · exact le_trans (le_max_left _ _) (le_max_left _ _)
      · exact le_trans (le_max_right _ _) (le_max_right _ _))]
    have la : (padZeros (parse_version a) M).length = M :=
      padZeros_length _ _ (le_trans (le_max_left _ _) (le_max_left _ _))
    have lb : (padZeros (parse_version b) M).length = M :=
      padZeros_length _ _ (le_trans (le_max_right _ _) (le_max_left _ _))
    have lc : (padZeros (parse_version c) M).length = M :=
      padZeros_length _ _ (le_trans (le_max_right _ _) (le_max_right _ _))
    exact cmpComponents_trans _ _ _ (la.trans lb.symm) (lb.trans lc.symm) h1 h2

/-- Witness for C2: the total-order theorem applied at the concrete triple
`"1.2"`, `"1.1"`, `"1.0"`, discharging both hypotheses of the transitivity
conjunct by evaluation. -/
theorem compare_versions_total_order_witness :
    compare_versions "1.2" "1.1" ≥ 0 ∧ compare_versions "1.1" "1.0" ≥ 0 ∧
      compare_versions "1.2" "1.0" ≥ 0 := by
  refine ⟨by decide, by decide, ?_⟩
  exact (compare_versions_total_order "1.2" "1.1" "1.0").2.2 (by decide) (by decide)

/-- C8: the normalization and comparison worked examples hold:
`normalize("v1.2.0") == "1.2"`, `normalize("2.0.0.0") == "2"`,
`compare("1.10.0","1.9.9") == 1`, `compare("1.2","1.2.0") == 0`. -/
theorem normalize_compare_worked_examples :
    normalize_version "v1.2.0" = "1.2" ∧ normalize_version "2.0.0.0" = "2" ∧
    compare_versions "1.10.0" "1.9.9" = 1 ∧ compare_versions "1.2" "1.2.0" = 0 := by
  refine ⟨by decide, by decide, by decide, by decide⟩

/-- C9 counterexample: the empty version string does NOT parse to the empty
tuple; Python `"".split('.')` is `[""]`, so `parse("")` is the one-element
tuple `(0,)`. -/
theorem parse_empty_not_empty_tuple : ¬ parse_version "" = ([] : List Int) := by
  decide

/-- C9 amended: `parse("")` is the one-element tuple `(0,)` (because
`"".split('.') == [""]` and the empty part parses as `0`), and that tuple
compares as all-zero: for every version string `x`,
`compare("", x) == compare("0", x)`. -/
theorem parse_empty_amended :
    parse_version "" = [0] ∧
    ∀ x : String, compare_versions "" x = compare_versions "0" x := by
  refine ⟨by decide, fun x => compare_versions_congr_left "" "0" x (by decide)⟩

/-- C10: `compare` is total over arbitrary string inputs and returns exactly
one of `-1`, `0`, `1` (the other version-text operations `extract`,
`normalize`, `parse` are total Lean functions by construction of this
embedding, mirroring the source, whose only fallible operation, `int(part)`,
is guarded by `try/except`). -/
theorem compare_versions_range (a b : String) :
    compare_versions a b = -1 ∨ compare_versions a b = 0 ∨
      compare_versions a b = 1 := by
  unfold compare_versions
  exact cmpComponents_range _ _

/-! ## `version.py` lines 12-51: `extract_version_numbers`

The six source regex patterns are embedded as dedicated matchers over
`List Char`.  Each matcher receives the character preceding the current
position (for `\b` / `(?<!\w)`) and returns the captured group together
with the total match length; `findall` scans left to right, emitting
non-overlapping matches exactly as `re.findall` does.  The greedy
semantics of each pattern (including the one productive backtracking case,
`\bv(\d+(?:\.\d+)+)\b` dropping its final dot-group to satisfy the
trailing `\b`) are encoded directly. -/

/-- `\b`-style test: the previous character is absent or not a word
character. -/
def noPrevWord (prev : Option Char) : Bool :=
  match prev with
  | none => true
  | some c => !(isWordC c)

/-- Case-insensitive literal match (pattern given in lowercase); returns
the rest of the input on success. -/
def matchLitCI : List Char → List Char → Option (List Char)
  | [], cs => some cs
  | _ :: _, [] => none
  | p :: ps, c :: cs => if c.toLower == p then matchLitCI ps cs else none

/-- Greedy `(?:\.\d+)*`: the list of matched `.digits` groups and the rest.
Fueled for structural recursion; `dotGroups` supplies ample fuel. -/
def dotGroupsAux : Nat → List Char → List (List Char) × List Char
  | 0, cs => ([], cs)
  | fuel + 1, cs =>
    match cs with
    | '.' :: rest =>
      let dr := takeDigits rest
      if dr.1.isEmpty then ([], cs)
      else
        let gr := dotGroupsAux fuel dr.2
        (('.' :: dr.1) :: gr.1, gr.2)
    | _ => ([], cs)

def dotGroups (cs : List Char) : List (List Char) × List Char :=
  dotGroupsAux (cs.length + 1) cs

/-- Pattern 1: `version\s+(\d+(?:\.\d+)+)`. -/
def matchP1 (_prev : Option Char) (cs : List Char) : Option (List Char × Nat) :=
  match matchLitCI "version".data cs with
  | none => none
  | some r1 =>
    let sp := takeSpaces r1
    if sp.1.isEmpty then none
    else
      let d0 := takeDigits sp.2
      if d0.1.isEmpty then none
      else
        let gr := dotGroups d0.2
        if gr.1.isEmpty then none
        else some (d0.1 ++ gr.1.flatten, cs.length - gr.2.length)

/-- Pattern 2: `\bv(\d+(?:\.\d+)+)\b`.  When the trailing `\b` fails after
the maximal munch, the engine backtracks by dropping the final dot-group
(which puts a `.` after the match, satisfying `\b`); shrinking a digit run
can never satisfy `\b`, so that is the only productive backtrack. -/
def matchP2 (prev : Option Char) (cs : List Char) : Option (List Char × Nat) :=
  if !noPrevWord prev then none
  else
    match cs with
    | c :: r1 =>
      if c.toLower == 'v' then
        let d0 := takeDigits r1
        if d0.1.isEmpty then none
        else
          let gr := dotGroups d0.2
          if gr.1.isEmpty then none
          else
            let okEnd :=
              match gr.2 with
              | [] => true
              | c2 :: _ => !isWordC c2
            if okEnd then some (d0.1 ++ gr.1.flatten, cs.length - gr.2.length)
            else if gr.1.length ≥ 2 then
              let gs2 := gr.1.dropLast
              some (d0.1 ++ gs2.flatten, 1 + d0.1.length + gs2.flatten.length)
            else none
      else none
    | [] => none

/-- Pattern 3: `(?<!\w)(\d+\.\d+(?:\.\d+)*)`. -/
def matchP3 (prev : Option Char) (cs : List Char) : Option (List Char × Nat) :=
  if !noPrevWord prev then none
  else
    let d0 := takeDigits cs
    if d0.1.isEmpty then none
    else
      let gr := dotGroups d0.2
      if gr.1.isEmpty then none
      else some (d0.1 ++ gr.1.flatten, cs.length - gr.2.length)

/-- Pattern 4: `version:\s+(\d+(?:\.\d+)+)`. -/
def matchP4 (_prev : Option Char) (cs : List Char) : Option (List Char × Nat) :=
  match matchLitCI "version:".data cs with
  | none => none
  | some r1 =>
    let sp := takeSpaces r1
    if sp.1.isEmpty then none
    else
      let d0 := takeDigits sp.2
      if d0.1.isEmpty then none
      else
        let gr := dotGroups d0.2
        if gr.1.isEmpty then none
        else some (d0.1 ++ gr.1.flatten, cs.length - gr.2.length)

/-- Pattern 5: `(\d+\.\d+(?:\.\d+)*)\s*\(build\s+\d+\)`. -/
def matchP5 (_prev : Option Char) (cs : List Char) : Option (List Char × Nat) :=
  let d0 := takeDigits cs
  if d0.1.isEmpty then none
  else
    let gr := dotGroups d0.2
    if gr.1.isEmpty then none
    else
      let sp := takeSpaces gr.2
      match matchLitCI "(build".data sp.2 with
      | none => none
      | some r4 =>
        let sp2 := takeSpaces r4
        if sp2.1.isEmpty then none
        else
          let d1 := takeDigits sp2.2
          if d1.1.isEmpty then none
          else
            match d1.2 with
            | ')' :: r7 => some (d0.1 ++ gr.1.flatten, cs.length - r7.length)
            | _ => none

/-- Pattern 6: `(?<!\w)(\d+\.\d+)(?!\.\d+)(?!\d)`. -/
def matchP6 (prev : Option Char) (cs : List Char) : Option (List Char × Nat) :=
  if !noPrevWord prev then none
  else
    let d0 := takeDigits cs
    if d0.1.isEmpty then none
    else
      match d0.2 with
      | '.' :: r2 =>
        let d1 := takeDigits r2
        if d1.1.isEmpty then none
        else
          let la1 :=
            match d1.2 with
            | '.' :: c :: _ => c.isDigit
            | _ => false
          let la2 :=
            match d1.2 with
            | c :: _ => c.isDigit
            | [] => false
          if la1 || la2 then none
          else some (d0.1 ++ '.' :: d1.1, d0.1.length + 1 + d1.1.length)
      | _ => none

/-- The `re.findall` scan: try a match at each position from left to
right; on success emit the group and resume after the match, otherwise
advance one character.  Fuel bounds the number of steps (each step
consumes at least one character, so `length + 1` is ample). -/
def scanAux (m : Option Char → List Char → Option (List Char × Nat)) :
    Nat → Option Char → List Char → List (List Char)
  | 0, _, _ => []
  | _ + 1, _, [] => []
  | fuel + 1, prev, c :: rest =>
    match m prev (c :: rest) with
    | some (g, len) =>
      if len == 0 then scanAux m fuel (some c) rest
      else g :: scanAux m fuel ((c :: rest).get? (len - 1)) (List.drop len (c :: rest))
    | none => scanAux m fuel (some c) rest

def findall (m : Option Char → List Char → Option (List Char × Nat))
    (text : List Char) : List (List Char) :=
  scanAux m (text.length + 1) none text

/-- The six patterns of `extract_version_numbers`, in source order. -/
def versionPatterns : List (Option Char → List Char → Option (List Char × Nat)) :=
  [matchP1, matchP2, matchP3, matchP4, matchP5, matchP6]

/-- The `versions` list built by the pattern loop of
`extract_version_numbers`: all matches, pattern by pattern in precedence
order, occurrences in text order. -/
def versionCandidates (text : String) : List String :=
  ((versionPatterns.map (fun p => findall p text.data)).flatten).map String.mk

/-- The final deduplication loop of `extract_version_numbers`
(`if version not in unique_versions: unique_versions.append(version)`). -/
def dedupFirst (vs : List String) : List String :=
  vs.foldl (fun acc v => if v ∈ acc then acc else acc ++ [v]) []

/-- `extract_version_numbers` (version.py lines 12-51). -/
def extract_version_numbers (text : String) : List String :=
  dedupFirst (versionCandidates text)

/-! ## Deduplication lemmas for C7 -/

theorem dedupFirst_aux (l : List String) :
    ∀ acc : List String, acc.Nodup →
      ∃ r, List.foldl (fun acc v => if v ∈ acc then acc else acc ++ [v]) acc l
            = acc ++ r ∧
        r.Sublist l ∧ (acc ++ r).Nodup ∧ (∀ v, v ∈ acc ++ r ↔ v ∈ acc ∨ v ∈ l) := by
  induction l with
  | nil =>
    intro acc hacc
    exact ⟨[], by simp, List.Sublist.refl _, by simpa using hacc, by simp⟩
  | cons x l ih =>
    intro acc hacc
    by_cases hx : x ∈ acc
    · obtain ⟨r, h1, h2, h3, h4⟩ := ih acc hacc
      refine ⟨r, ?_, h2.cons x, h3, ?_⟩
      · simpa [hx] using h1
      · intro v
        rw [h4 v]
        simp only [List.mem_cons]
        constructor
        · rintro (hv | hv)
          · exact Or.inl hv
          · exact Or.inr (Or.inr hv)
        · rintro (hv | hv | hv)
          · exact Or.inl hv
          · exact Or.inl (hv ▸ hx)
          · exact Or.inr hv
    · have hacc2 : (acc ++ [x]).Nodup := by
        rw [List.nodup_append]
        refine ⟨hacc, List.nodup_singleton x, ?_⟩
        simp [List.disjoint_singleton, hx]
      obtain ⟨r, h1, h2, h3, h4⟩ := ih (acc ++ [x]) hacc2
      refine ⟨x :: r, ?_, h2.cons₂ x, ?_, ?_⟩
      · simp only [List.foldl_cons, if_neg hx]
        rw [h1, List.append_assoc]
        rfl
      · rw [← List.singleton_append, ← List.append_assoc]
        exact h3
      · intro v
        have := h4 v
        rw [← List.singleton_append, ← List.append_assoc]
        rw [this]
        simp only [List.mem_append, List.mem_singleton, List.mem_cons]
        tauto

theorem dedupFirst_spec (l : List String) :
    (dedupFirst l).Nodup ∧ (dedupFirst l).Sublist l ∧
      (∀ v, v ∈ dedupFirst l ↔ v ∈ l) := by
  obtain ⟨r, h1, h2, h3, h4⟩ := dedupFirst_aux l [] List.nodup_nil
  have hr : dedupFirst l = r := by simpa [dedupFirst] using h1
  rw [hr]
  refine ⟨by simpa using h3, h2, fun v => ?_⟩
  have := h4 v
  simpa using this

/-- C7: for every input text, `extract` returns a list without duplicates
whose order is inherited from the pattern-precedence-then-occurrence order
of the raw match list (`extract` is an order-preserving sublist of the raw
candidates with the same members); in particular
`extract("Version: 3.4.1 (build 77)")` contains `"3.4.1"` (and equals
`["3.4.1", "4.1"]`, with `"3.4.1"` ahead of the standalone-pattern match
`"4.1"`). -/
theorem extract_version_numbers_nodup_ordered :
    (∀ text : String,
      (extract_version_numbers text).Nodup ∧
      (extract_version_numbers text).Sublist (versionCandidates text) ∧
      (∀ v, v ∈ extract_version_numbers text ↔ v ∈ versionCandidates text)) ∧
    extract_version_numbers "Version: 3.4.1 (build 77)" = ["3.4.1", "4.1"] ∧
    "3.4.1" ∈ extract_version_numbers "Version: 3.4.1 (build 77)" := by
  refine ⟨fun text => dedupFirst_spec (versionCandidates text), by decide, by decide⟩

/-! ## Strategy result records and the orchestrator

`UpdateFinder.find_latest` (update_finder.py lines 96-133) loops over the
loaded methods; `can_handle` and `get_version` run inside a `try` whose
`except Exception` logs and moves on.  Results whose `latest_version` is
truthy are collected; if none, a warning is logged and `None` returned;
otherwise the best result is selected and decorated with
`current_version` / `update_found`.

The strategy-facing version utilities it calls,
`hekate.utils.version.VersionCheck.find_higher` and
`VersionCheck.compare(a, ">", b)`, live in `hekate/utils/version.py`,
which is not part of the sources; they are modelled from the spec below. -/

/-- The version-information record of
https://github.com/devKaos117/Hekate.py version.schema.json, as built by
`WikipediaMethod.get_version` / `GoogleMethod.get_version`. -/
structure VersionResult where
  current_version : Option String
  latest_version : Option String
  update_found : Bool
  source_url : Option String
  release_date : Option String
  method : String
deriving Repr, DecidableEq

/-- A loaded strategy instance: its class name plus the behaviour of its
two interface methods.  `Except String` models a raised Python exception
escaping the call. -/
structure Method where
  name : String
  canHandle : String → Except String Bool
  getVersion : String → Except String VersionResult

/-- Log levels used by `find_latest` (`kronos.Logger` calls). -/
inductive LogLevel where
  | info
  | debug
  | warning
  | error
  | exception
deriving Repr, DecidableEq, BEq

/-- Python truthiness of `result.get('latest_version')`: a present,
non-empty string. -/
def truthyOpt : Option String → Bool
  | none => false
  | some s => s ≠ ""

/-- The body of the per-method `try`: `can_handle`, then `get_version`
when applicable; an exception in either escapes to the orchestrator's
handler. -/
def runMethod (m : Method) (software_name : String) :
    Except String (Option VersionResult) :=
  match m.canHandle software_name with
  | .error e => .error e
  | .ok false => .ok none
  | .ok true =>
    match m.getVersion software_name with
    | .error e => .error e
    | .ok r => .ok (some r)

/-- The dispatch loop of `find_latest` (lines 110-121): collected truthy
results in dispatch order, plus the log entries emitted along the way. -/
def collectResults : List Method → String →
    List VersionResult × List (LogLevel × String)
  | [], _ => ([], [])
  | m :: ms, software_name =>
    let rest := collectResults ms software_name
    match runMethod m software_name with
    | .error e =>
      (rest.1, (LogLevel.exception, "Error in method " ++ m.name ++ ": " ++ e) :: rest.2)
    | .ok none => rest
    | .ok (some r) =>
      if truthyOpt r.latest_version then
        (r :: rest.1,
          (LogLevel.debug,
            "Found version " ++ r.latest_version.getD "" ++ " via " ++ m.name) :: rest.2)
      else rest

namespace VersionCheck

/-- Modelled from the spec: `hekate/utils/version.py` (class
`VersionCheck`) is not among the sources; per §4.3 "Decided", the winner is
"the result whose `latest_version` is maximal under VersionText.compare;
ties broken by dispatch order (first strategy to produce the max value
wins, i.e. a stable max-scan, not a sort)". -/
def find_higher (results : List VersionResult) : Option VersionResult :=
  match results with
  | [] => none
  | r :: rs =>
    some (rs.foldl
      (fun best cand =>
        if compare_versions (cand.latest_version.getD "") (best.latest_version.getD "") > 0
        then cand else best) r)

/-- Modelled from the spec: `VersionCheck.compare(latest, ">", current)`
from the missing `hekate/utils/version.py`, per §4.3
(`update_found = compare(latest_version, current_version) > 0`, "treating
a missing current_version as 'always update_found = false'"; §4.1's
comparison algebra is `compare_versions` above). -/
def compareGt (latest : String) (current : Option String) : Bool :=
  match current with
  | none => false
  | some c => compare_versions latest c > 0

end VersionCheck

/-- `UpdateFinder.find_latest` (update_finder.py lines 96-133), returning
the result value together with the emitted log. -/
def find_latest (methods : List Method) (software_name : String)
    (current_version : Option String) :
    Option VersionResult × List (LogLevel × String) :=
  let logs0 := [(LogLevel.info, "Searching for update to " ++ software_name)]
  let collected := collectResults methods software_name
  if collected.1.isEmpty then
    (none, logs0 ++ collected.2 ++ [(LogLevel.warning, "No version information found")])
  else
    match VersionCheck.find_higher collected.1 with
    | none => (none, logs0 ++ collected.2)
    | some best =>
      (some { best with
                current_version := current_version,
                update_found :=
                  VersionCheck.compareGt (best.latest_version.getD "") current_version },
        logs0 ++ collected.2)

/-- Number of "no information found" warnings in a log. -/
def countNoInfoWarnings (logs : List (LogLevel × String)) : Nat :=
  (logs.filter
    (fun l => l.1 == LogLevel.warning && l.2 == "No version information found")).length

/-! ## Claim theorems over the orchestrator -/

/-- C1: with three registered strategies where A's `get_version` raises,
B returns latest `"2.1"` and C returns latest `"2.3"`,
`resolve("x", "2.0")` returns latest `"2.3"` with `update_found = true`
and does not raise: A's fault is absorbed at the orchestrator boundary and
the maximal result under `compare` wins.  (`find_latest` returning a value
for arbitrary such strategies is the no-raise property: the per-method
`try/except` is the only consumer of strategy exceptions.) -/
theorem find_latest_isolates_strategy_faults
    (A B C : Method) (e : String) (rB rC : VersionResult)
    (hA1 : A.canHandle "x" = .ok true) (hA2 : A.getVersion "x" = .error e)
    (hB1 : B.canHandle "x" = .ok true) (hB2 : B.getVersion "x" = .ok rB)
    (hBl : rB.latest_version = some "2.1")
    (hC1 : C.canHandle "x" = .ok true) (hC2 : C.getVersion "x" = .ok rC)
    (hCl : rC.latest_version = some "2.3") :
    ∃ r, (find_latest [A, B, C] "x" (some "2.0")).1 = some r ∧
      r.latest_version = some "2.3" ∧ r.update_found = true := by
  have hA3 : runMethod A "x" = .error e := by
    simp only [runMethod, hA1, hA2]
  have hB3 : runMethod B "x" = .ok (some rB) := by
    simp only [runMethod, hB1, hB2]
  have hC3 : runMethod C "x" = .ok (some rC) := by
    simp only [runMethod, hC1, hC2]
  refine ⟨{ rC with current_version := some "2.0", update_found := true }, ?_, by simp [hCl], rfl⟩
  simp [find_latest, collectResults, hA3, hB3, hC3, hBl, hCl, truthyOpt,
    VersionCheck.find_higher, VersionCheck.compareGt,
    show compare_versions "2.3" "2.1" = 1 from by decide,
    show compare_versions "2.3" "2.0" = 1 from by decide]

/-- A strategy whose `get_version` raises (for the C1 witness). -/
def methodFaulty : Method :=
  ⟨"A", fun _ => .ok true, fun _ => .error "boom"⟩

/-- The record returned by the witness strategy reporting 2.1. -/
def resultB : VersionResult :=
  ⟨none, some "2.1", false, none, none, "B"⟩

/-- The record returned by the witness strategy reporting 2.3. -/
def resultC : VersionResult :=
  ⟨none, some "2.3", false, none, none, "C"⟩

def methodB : Method := ⟨"B", fun _ => .ok true, fun _ => .ok resultB⟩

def methodC : Method := ⟨"C", fun _ => .ok true, fun _ => .ok resultC⟩

/-- Witness for C1 at a concrete strategy triple. -/
theorem find_latest_isolates_strategy_faults_witness :
    ∃ r, (find_latest [methodFaulty, methodB, methodC] "x" (some "2.0")).1 = some r ∧
      r.latest_version = some "2.3" ∧ r.update_found = true :=
  find_latest_isolates_strategy_faults methodFaulty methodB methodC "boom"
    resultB resultC rfl rfl rfl rfl rfl rfl rfl rfl

/-- C4: when the caller supplies no `current_version`, any result returned
by `resolve` has `update_found = false` (the comparison is guarded on the
missing current version and cannot raise). -/
theorem find_latest_no_current_version_no_update
    (methods : List Method) (software_name : String) (r : VersionResult)
    (h : (find_latest methods software_name none).1 = some r) :
    r.update_found = false := by
  simp only [find_latest] at h
  split at h
  · simp at h
  · split at h
    · simp at h
    · simp only [Option.some.injEq] at h
      subst h
      rfl

/-- Witness for C4: a single strategy reporting 2.1 queried with no
current version. -/
theorem find_latest_no_current_version_no_update_witness :
    resultB.update_found = false :=
  find_latest_no_current_version_no_update [methodB] "x" resultB rfl

/-- Helper for C5: when no dispatched method produces a truthy
`latest_version`, the collected results are empty and every log entry of
the dispatch loop is at exception level. -/
theorem collectResults_all_empty (software_name : String) :
    ∀ methods : List Method,
      (∀ m ∈ methods, ∀ r, runMethod m software_name = .ok (some r) →
        truthyOpt r.latest_version = false) →
      (collectResults methods software_name).1 = [] ∧
      ∀ l ∈ (collectResults methods software_name).2, l.1 = LogLevel.exception := by
  intro methods
  induction methods with
  | nil => intro _; exact ⟨rfl, by simp [collectResults]⟩
  | cons m ms ih =>
    intro h
    have hm := h m (List.mem_cons_self m ms)
    obtain ⟨h1, h2⟩ := ih (fun m2 hm2 r hr => h m2 (List.mem_cons_of_mem m hm2) r hr)
    cases hrm : runMethod m software_name with
    | error e =>
      simp only [collectResults, hrm]
      refine ⟨h1, fun l hl => ?_⟩
      rcases List.mem_cons.mp hl with hl | hl
      · rw [hl]
      · exact h2 l hl
    | ok o =>
      cases o with
      | none =>
        simp only [collectResults, hrm]
        exact ⟨h1, h2⟩
      | some r =>
        have hfalse := hm r hrm
        simp only [collectResults, hrm, hfalse, Bool.false_eq_true, if_false]
        exact ⟨h1, h2⟩

/-- C5: when every applicable strategy yields an empty result, `resolve`
returns the null sentinel as a value (the model is a total function, so it
never raises) and logs the "no information found" warning exactly once. -/
theorem find_latest_all_empty_returns_none
    (methods : List Method) (software_name : String) (cv : Option String)
    (h : ∀ m ∈ methods, ∀ r, runMethod m software_name = .ok (some r) →
      truthyOpt r.latest_version = false) :
    (find_latest methods software_name cv).1 = none ∧
    countNoInfoWarnings (find_latest methods software_name cv).2 = 1 := by
  obtain ⟨h1, h2⟩ := collectResults_all_empty software_name methods h
  have hemp : (collectResults methods software_name).1.isEmpty = true := by
    rw [h1]; rfl
  simp only [find_latest, hemp, if_true]
  refine ⟨trivial, ?_⟩
  unfold countNoInfoWarnings
  rw [List.filter_append, List.filter_append, List.length_append, List.length_append]
  have hmid : (collectResults methods software_name).2.filter
      (fun l => l.1 == LogLevel.warning && l.2 == "No version information found") = [] := by
    rw [List.filter_eq_nil_iff]
    intro l hl
    rw [h2 l hl, show (LogLevel.exception == LogLevel.warning) = false from rfl]
    simp
  rw [hmid]
  rfl

/-- Witness for C5 with an empty strategy list. -/
theorem find_latest_all_empty_returns_none_witness :
    (find_latest ([] : List Method) "x" none).1 = none ∧
    countNoInfoWarnings (find_latest ([] : List Method) "x" none).2 = 1 :=
  find_latest_all_empty_returns_none [] "x" none
    (fun m hm => absurd hm (List.not_mem_nil m))

/-! ## `WikipediaMethod.get_version` (wikipedia.py lines 35-113)

The per-language search loop runs inside `try/except Exception`, so any
fault there is caught, logged and treated as a failed language (collapsed
to `none`/`.error` in the environment model below).  The code AFTER the
loop (lines 100-111) runs outside any handler:
`infobox = soup.find("table", class_="infobox")` may be `None`, in which
case `infobox.find("tbody")` raises `AttributeError`; and when an infobox
is present, `for row in rows:` raises `NameError` because `rows` is never
assigned anywhere in the module.  `Except PyExc` models an exception
escaping `get_version`. -/

/-- Exceptions that escape `get_version`. -/
inductive PyExc where
  | attributeError (msg : String)
  | nameError (msg : String)
deriving Repr, DecidableEq

/-- One search response: the page ids under `response.json()['query']['pages']`;
`.error` models `json()` / key access raising inside the `try`. -/
structure WikiSearchResp where
  pagesKeys : Except String (List String)

/-- A successfully fetched page (`wiki_page.text`, `wiki_page.url`). -/
structure WikiPageResp where
  text : String
  url : String

/-- Environment oracle for the collaborators of `WikipediaMethod`:
the search request per language, the page fetch per language and page id
(`none` models a falsy `client.get` result or a caught in-loop fault), and
whether `BeautifulSoup(...).find("table", class_="infobox")` finds a node
in the fetched HTML. -/
structure WikiEnv where
  search : String → Option WikiSearchResp
  page : String → String → Option WikiPageResp
  hasInfobox : String → Bool

/-- The `for lang in langs` loop (wikipedia.py lines 59-94): first language
whose search yields a page id and whose page fetch succeeds wins; every
failure mode continues with the next language. -/
def wikiSearchLoop (env : WikiEnv) : List String → Option WikiPageResp
  | [] => none
  | lang :: rest =>
    match env.search lang with
    | none => wikiSearchLoop env rest
    | some resp =>
      match resp.pagesKeys with
      | .error _ => wikiSearchLoop env rest
      | .ok [] => wikiSearchLoop env rest
      | .ok (pid :: _) =>
        match env.page lang pid with
        | none => wikiSearchLoop env rest
        | some pg => some pg

/-- `WikipediaMethod.get_version` (wikipedia.py lines 35-113).  Note the
initial record (lines 45-52) sets `method` to `"google"` even though this
is the Wikipedia strategy.  When no page is found the empty record is
returned (line 96-98); when a page IS fetched, the post-loop code raises:
`AttributeError` at line 102 if the page has no infobox, otherwise
`NameError` at line 104 (`rows` is undefined). -/
def wikipediaGetVersion (env : WikiEnv) (_software_name : String) :
    Except PyExc VersionResult :=
  let result : VersionResult := ⟨none, none, false, none, none, "google"⟩
  match wikiSearchLoop env ["en", "pt"] with
  | none => .ok result
  | some pg =>
    if env.hasInfobox pg.text then
      .error (.nameError "name rows is not defined")
    else
      .error (.attributeError "NoneType object has no attribute find")

/-- A collaborator environment in which the English search succeeds and the
fetched page carries an infobox table. -/
def wikiEnvInfobox : WikiEnv :=
  ⟨fun _ => some ⟨.ok ["123"]⟩,
   fun _ _ => some ⟨"page with infobox", "https://en.wikipedia.org/w/index.php?curid=123"⟩,
   fun _ => true⟩

/-- The same environment, but the fetched page has no infobox table (the
missing-DOM-node case the claim calls a foreseeable failure). -/
def wikiEnvNoInfobox : WikiEnv :=
  ⟨fun _ => some ⟨.ok ["123"]⟩,
   fun _ _ => some ⟨"page without infobox", "https://en.wikipedia.org/w/index.php?curid=123"⟩,
   fun _ => false⟩

/-- C3 (code bug): `WikipediaMethod.get_version` raises past its own
boundary on every successful page fetch — `AttributeError` when the page
lacks an infobox (a missing DOM node, exactly the foreseeable failure the
claim covers), `NameError` otherwise — instead of logging and returning a
record with `latest_version = None`. -/
theorem wikipedia_get_version_raises :
    wikipediaGetVersion wikiEnvNoInfobox "firefox" =
      .error (.attributeError "NoneType object has no attribute find") ∧
    wikipediaGetVersion wikiEnvInfobox "firefox" =
      .error (.nameError "name rows is not defined") :=
  ⟨rfl, rfl⟩

/-! ## Result-record field sets (C6) -/

/-- A Python dict value as used in the strategies' result literals. -/
inductive PyVal where
  | none
  | str (s : String)
  | bool (b : Bool)
deriving Repr, DecidableEq

/-- The result dict literal of `WikipediaMethod.get_version`
(wikipedia.py lines 45-52), key by key. -/
def wikipediaInitResult : List (String × PyVal) :=
  [("current_version", PyVal.none), ("latest_version", PyVal.none),
   ("update_found", PyVal.bool false), ("source_url", PyVal.none),
   ("release_date", PyVal.none), ("method", PyVal.str "google")]

/-- The result dict literal of `WebsiteStrategy.get_version`
(provider.py lines 96-102), key by key. -/
def providerInitResult (software_name : String) : List (String × PyVal) :=
  [("software", PyVal.str software_name), ("latest_version", PyVal.none),
   ("download_url", PyVal.none), ("release_date", PyVal.none),
   ("source", PyVal.str "WebsiteStrategy")]

/-- The StrategyResult field set claimed by the spec (and by the
version.schema.json contract referenced in the strategy docstrings). -/
def strategyResultFields : List String :=
  ["current_version", "latest_version", "update_found", "source_url",
   "release_date", "method"]

/-- C6 (code bug): `WebsiteStrategy.get_version` builds a record whose keys
are NOT the StrategyResult fields, and `WikipediaMethod.get_version` builds
a record with the right keys whose `method` field is `"google"`, not an
identifier of the producing Wikipedia strategy. -/
theorem strategy_result_record_mismatch :
    (providerInitResult "firefox").map Prod.fst ≠ strategyResultFields ∧
    wikipediaInitResult.map Prod.fst = strategyResultFields ∧
    List.lookup "method" wikipediaInitResult = some (PyVal.str "google") := by
  refine ⟨by decide, by decide, by decide⟩
